import Mathlib

/-!
# twhd: genesis parameters and the netsync interface

A verification development over `chaincfg/genesis.go` and `netsync/interface.go`.
Bytes, 32-bit words and Go integers are natural numbers or integers, with the
reduction modulo `2^32` written out where the code truncates.
-/

/-! ## crypto/sha256 (FIPS 180-4), the primitive under chainhash.DoubleHashH -/

namespace sha256

def mask32 : Nat := 0xffffffff

def add32 (x y : Nat) : Nat := (x + y) % 4294967296

def rotr (x n : Nat) : Nat := ((x >>> n) ||| (x <<< (32 - n))) % 4294967296

def ch (x y z : Nat) : Nat := (x &&& y) ^^^ ((x ^^^ mask32) &&& z)

def maj (x y z : Nat) : Nat := (x &&& y) ^^^ (x &&& z) ^^^ (y &&& z)

def bigSigma0 (x : Nat) : Nat := rotr x 2 ^^^ rotr x 13 ^^^ rotr x 22

def bigSigma1 (x : Nat) : Nat := rotr x 6 ^^^ rotr x 11 ^^^ rotr x 25

def smallSigma0 (x : Nat) : Nat := rotr x 7 ^^^ rotr x 18 ^^^ (x >>> 3)

def smallSigma1 (x : Nat) : Nat := rotr x 17 ^^^ rotr x 19 ^^^ (x >>> 10)

/-- Round constants: the first 32 bits of the fractional parts of the cube roots of the
first 64 primes. -/
def K : List Nat := [
  0x428a2f98, 0x71374491, 0xb5c0fbcf, 0xe9b5dba5, 0x3956c25b, 0x59f111f1, 0x923f82a4, 0xab1c5ed5,
  0xd807aa98, 0x12835b01, 0x243185be, 0x550c7dc3, 0x72be5d74, 0x80deb1fe, 0x9bdc06a7, 0xc19bf174,
  0xe49b69c1, 0xefbe4786, 0x0fc19dc6, 0x240ca1cc, 0x2de92c6f, 0x4a7484aa, 0x5cb0a9dc, 0x76f988da,
  0x983e5152, 0xa831c66d, 0xb00327c8, 0xbf597fc7, 0xc6e00bf3, 0xd5a79147, 0x06ca6351, 0x14292967,
  0x27b70a85, 0x2e1b2138, 0x4d2c6dfc, 0x53380d13, 0x650a7354, 0x766a0abb, 0x81c2c92e, 0x92722c85,
  0xa2bfe8a1, 0xa81a664b, 0xc24b8b70, 0xc76c51a3, 0xd192e819, 0xd6990624, 0xf40e3585, 0x106aa070,
  0x19a4c116, 0x1e376c08, 0x2748774c, 0x34b0bcb5, 0x391c0cb3, 0x4ed8aa4a, 0x5b9cca4f, 0x682e6ff3,
  0x748f82ee, 0x78a5636f, 0x84c87814, 0x8cc70208, 0x90befffa, 0xa4506ceb, 0xbef9a3f7, 0xc67178f2]

/-- Initial hash value. -/
def H0 : List Nat := [
  0x6a09e667, 0xbb67ae85, 0x3c6ef372, 0xa54ff53a, 0x510e527f, 0x9b05688c, 0x1f83d9ab, 0x5be0cd19]

/-- Big-endian 32-bit words of a byte list (a trailing partial word is dropped). -/
def bytesToWords : List Nat → List Nat
  | b0 :: b1 :: b2 :: b3 :: rest =>
      (b0 * 16777216 + b1 * 65536 + b2 * 256 + b3) :: bytesToWords rest
  | _ => []

/-- Big-endian bytes of a 32-bit word. -/
def wordToBytes (w : Nat) : List Nat :=
  [w / 16777216 % 256, w / 65536 % 256, w / 256 % 256, w % 256]

/-- Extends the message schedule, kept most recent word first, by `n` words:
`W[t] = σ1(W[t-2]) + W[t-7] + σ0(W[t-15]) + W[t-16]`. -/
def extend : Nat → List Nat → List Nat
  | 0, ws => ws
  | n + 1, ws =>
      let w := add32 (add32 (add32 (smallSigma1 (ws.getD 1 0)) (ws.getD 6 0))
                 (smallSigma0 (ws.getD 14 0))) (ws.getD 15 0)
      extend n (w :: ws)

/-- The 64 schedule words of one 64-byte block. -/
def schedule (block : List Nat) : List Nat :=
  (extend 48 (bytesToWords block).reverse).reverse

/-- One round on the working variables `a..h` with round constant `kw.1` and schedule
word `kw.2`. -/
def round (st : List Nat) (kw : Nat × Nat) : List Nat :=
  match st with
  | [a, b, c, d, e, f, g, h] =>
      let t1 := add32 (add32 (add32 (add32 h (bigSigma1 e)) (ch e f g)) kw.1) kw.2
      let t2 := add32 (bigSigma0 a) (maj a b c)
      [add32 t1 t2, a, b, c, add32 d t1, e, f, g]
  | _ => st

/-- Compression of one block into the chaining value. -/
def compress (hs : List Nat) (block : List Nat) : List Nat :=
  List.zipWith add32 hs ((K.zip (schedule block)).foldl round hs)

/-- Padding: the byte 0x80, zero bytes up to 56 modulo 64, the bit length as 64 bits
big-endian. -/
def pad (msg : List Nat) : List Nat :=
  let l := msg.length
  let zeros := (119 - l % 64) % 64
  let bits := l * 8
  msg ++ [0x80] ++ List.replicate zeros 0 ++
    [bits / 72057594037927936 % 256, bits / 281474976710656 % 256, bits / 1099511627776 % 256,
     bits / 4294967296 % 256, bits / 16777216 % 256, bits / 65536 % 256, bits / 256 % 256,
     bits % 256]

/-- The first `n` 64-byte blocks of a byte list. -/
def blocks : Nat → List Nat → List (List Nat)
  | 0, _ => []
  | n + 1, bs => bs.take 64 :: blocks n (bs.drop 64)

/-- The SHA-256 digest (32 bytes) of a byte list. -/
def Sum256 (msg : List Nat) : List Nat :=
  let p := pad msg
  (((blocks (p.length / 64) p).foldl compress H0).map wordToBytes).flatten

end sha256

/-! ## chainhash -/

namespace chainhash

/-- The size in bytes of a hash array. -/
def HashSize : Nat := 32

/-- The type `Hash` is `[HashSize]byte`: its bytes in array order. -/
abbrev Hash := List Nat

/-- The zero value `chainhash.Hash{}`. -/
def Hash.zero : Hash := List.replicate HashSize 0

/-- Modelled from the spec: `chainhash.DoubleHashH` is not among the sources; the claim
on the genesis hash names the double SHA-256, so this is `sha256(sha256(b))` with the digest
bytes kept in the order SHA-256 returns them. -/
def DoubleHashH (b : List Nat) : Hash := sha256.Sum256 (sha256.Sum256 b)

end chainhash

/-! ## time and wire: the types the genesis literals are written in -/

namespace time

/-- A `time.Time` as built by `time.Unix`: seconds and nanoseconds since the epoch. -/
structure Time where
  sec : Int
  nsec : Int
deriving DecidableEq, Repr

/-- The constructor `time.Unix(sec, nsec)`: nanoseconds outside `[0, 999999999]` are
carried into the seconds, the quotient truncated towards zero as Go divides. -/
def Unix (sec nsec : Int) : Time :=
  if nsec < 0 ∨ 1000000000 ≤ nsec then
    let n := Int.tdiv nsec 1000000000
    let sec1 := sec + n
    let nsec1 := nsec - n * 1000000000
    if nsec1 < 0 then ⟨sec1 - 1, nsec1 + 1000000000⟩ else ⟨sec1, nsec1⟩
  else ⟨sec, nsec⟩

/-- The method `Time.Unix()`: seconds since the epoch. -/
def Time.Unix (t : Time) : Int := t.sec

end time

namespace wire

/-- The fields of `wire.OutPoint` that the literals set. -/
structure OutPoint where
  Hash : chainhash.Hash
  Index : Nat
deriving DecidableEq, Repr

/-- The fields of `wire.TxIn` that the literals set. -/
structure TxIn where
  PreviousOutPoint : OutPoint
  SignatureScript : List Nat
  Sequence : Nat
deriving DecidableEq, Repr

/-- The fields of `wire.TxOut` that the literals set. -/
structure TxOut where
  Value : Int
  PkScript : List Nat
deriving DecidableEq, Repr

/-- The fields of `wire.MsgTx` that the literals set. -/
structure MsgTx where
  Version : Int
  TxIn : List TxIn
  TxOut : List TxOut
  LockTime : Nat
deriving DecidableEq, Repr

/-- The fields of `wire.BlockHeader`. -/
structure BlockHeader where
  Version : Int
  PrevBlock : chainhash.Hash
  MerkleRoot : chainhash.Hash
  Timestamp : time.Time
  Bits : Nat
  Nonce : Nat
deriving DecidableEq, Repr

/-- The fields of `wire.MsgBlock`; the pointers in `Transactions` are followed. -/
structure MsgBlock where
  Header : BlockHeader
  Transactions : List MsgTx
deriving DecidableEq, Repr

/-- Little-endian bytes of a 32-bit integer, two's complement for a negative one. -/
def putUint32LE (v : Int) : List Nat :=
  let n := (v % 4294967296).toNat
  [n % 256, n / 256 % 256, n / 65536 % 256, n / 16777216 % 256]

/-- Modelled from the spec: the header serialization (`writeBlockHeader`) is not among the
sources; the claim on the genesis hash gives it as the 80 bytes Version, PrevBlock,
MerkleRoot, Timestamp as 32-bit Unix seconds, Bits, Nonce, integers little-endian. -/
def BlockHeader.serialize (h : BlockHeader) : List Nat :=
  putUint32LE h.Version ++ h.PrevBlock ++ h.MerkleRoot ++
    putUint32LE h.Timestamp.Unix ++ putUint32LE h.Bits ++ putUint32LE h.Nonce

/-- Modelled from the spec: `BlockHeader.BlockHash` is not among the sources; the claim on
the genesis hash gives it as the double SHA-256 of the serialized header. -/
def BlockHeader.BlockHash (h : BlockHeader) : chainhash.Hash :=
  chainhash.DoubleHashH h.serialize

end wire

/-! ## chaincfg/genesis.go -/

namespace chaincfg

/-- The coinbase transaction for the genesis blocks of the main network, the regression
test network and the test network (version 3). -/
def genesisCoinbaseTx : wire.MsgTx :=
  { Version := 1
    TxIn := [
      { PreviousOutPoint := { Hash := chainhash.Hash.zero, Index := 0xffffffff }
        SignatureScript := [
          0x04, 0xff, 0xff, 0x00, 0x1d, 0x01, 0x04, 0x4c,
          0x51, 0x54, 0x72, 0x75, 0x73, 0x74, 0x6c, 0x65,
          0x73, 0x73, 0x20, 0x52, 0x65, 0x77, 0x61, 0x72,
          0x64, 0x73, 0x20, 0x46, 0x6f, 0x72, 0x20, 0x53,
          0x75, 0x73, 0x74, 0x61, 0x69, 0x6e, 0x61, 0x62,
          0x6c, 0x65, 0x20, 0x45, 0x6e, 0x65, 0x72, 0x67,
          0x79, 0x20, 0x41, 0x64, 0x6f, 0x70, 0x74, 0x69,
          0x6f, 0x6e, 0x20, 0x2d, 0x20, 0x55, 0x4e, 0x20,
          0x53, 0x44, 0x47, 0x73, 0x20, 0x37, 0x20, 0x39,
          0x20, 0x31, 0x31, 0x20, 0x31, 0x33, 0x20, 0x2c,
          0x20, 0x32, 0x2f, 0x30, 0x32, 0x2f, 0x32, 0x30,
          0x32, 0x30]
        Sequence := 0xffffffff }]
    TxOut := [
      { Value := 0x12a05f200
        PkScript := [
          0x41, 0x04, 0xf9, 0x22, 0x79, 0x3e, 0x1e, 0x9f,
          0xd9, 0x53, 0x40, 0x3b, 0x47, 0x5b, 0xbf, 0xe8,
          0xea, 0x32, 0x16, 0xb8, 0xb7, 0x08, 0x16, 0x68,
          0x53, 0xc0, 0x2f, 0x3f, 0x6b, 0x95, 0x23, 0x2c,
          0xf9, 0xe3, 0x6b, 0xcc, 0x29, 0x91, 0xdb, 0xef,
          0x13, 0x88, 0xf4, 0x2b, 0x5a, 0x72, 0x70, 0x0e,
          0xc8, 0x37, 0x6a, 0x79, 0xee, 0x4f, 0xfc, 0x00,
          0x23, 0x55, 0xee, 0x39, 0x0d, 0x19, 0x2b, 0x27,
          0xc9, 0x71, 0xac] }]
    LockTime := 0 }

/-- The hash of the first block in the block chain for the main network. -/
def genesisHash : chainhash.Hash := [
  0x8a, 0xd6, 0xe3, 0x24, 0xbe, 0xc1, 0x30, 0xd4,
  0x48, 0xe3, 0x08, 0x85, 0x6d, 0x11, 0xa9, 0xd4,
  0xb5, 0xfd, 0x19, 0xc2, 0x04, 0x80, 0x07, 0x9a,
  0x00, 0xe8, 0xca, 0xc9, 0x42, 0x61, 0x00, 0x00]

/-- The hash of the first transaction in the genesis block for the main network. -/
def genesisMerkleRoot : chainhash.Hash := [
  0xab, 0x4c, 0x83, 0xb8, 0xe4, 0x5c, 0x5b, 0xdb,
  0x44, 0x23, 0x2f, 0x17, 0xea, 0x6a, 0xf5, 0xc0,
  0x2e, 0xe0, 0x40, 0x97, 0x14, 0xc1, 0xe0, 0x9b,
  0xd8, 0xed, 0x12, 0x09, 0xb7, 0x4c, 0x04, 0xb8]

/-- The genesis block of the main network. -/
def genesisBlock : wire.MsgBlock :=
  { Header :=
      { Version := 1
        PrevBlock := chainhash.Hash.zero
        MerkleRoot := genesisMerkleRoot
        Timestamp := time.Unix 1580658322 0
        Bits := 0x1f00ffff
        Nonce := 0xf9f8 }
    Transactions := [genesisCoinbaseTx] }

/-- The hash of the first block in the block chain for the regression test network. -/
def regTestGenesisHash : chainhash.Hash := [
  0x8f, 0x82, 0x13, 0x61, 0x10, 0x80, 0xc7, 0xa9,
  0xf0, 0xd9, 0xd2, 0x85, 0x4e, 0xef, 0x83, 0x0a,
  0xde, 0xdc, 0x04, 0xdf, 0x2d, 0x1a, 0xfa, 0x5b,
  0x3e, 0xd0, 0x20, 0x18, 0x01, 0x30, 0xc3, 0xc4]

/-- The merkle root of the genesis block for the regression test network, as the
uncommented declaration writes it. -/
def regTestGenesisMerkleRoot : chainhash.Hash := [
  0x3b, 0xa3, 0xed, 0xfd, 0x7a, 0x7b, 0x12, 0xb2,
  0x7a, 0xc7, 0x2c, 0x3e, 0x67, 0x76, 0x8f, 0x61,
  0x7f, 0xc8, 0x1b, 0xc3, 0x88, 0x8a, 0x51, 0x32,
  0x3a, 0x9f, 0xb8, 0xaa, 0x4b, 0x1e, 0x5e, 0x4a]

/-- The genesis block of the regression test network. -/
def regTestGenesisBlock : wire.MsgBlock :=
  { Header :=
      { Version := 1
        PrevBlock := chainhash.Hash.zero
        MerkleRoot := regTestGenesisMerkleRoot
        Timestamp := time.Unix 1580662895 0
        Bits := 0x207fffff
        Nonce := 1 }
    Transactions := [genesisCoinbaseTx] }

/-- The hash of the first block in the block chain for the test network (version 3). -/
def testNet3GenesisHash : chainhash.Hash := [
  0x07, 0xc5, 0xe2, 0x09, 0x09, 0x0e, 0xc6, 0x0d,
  0xb9, 0x4f, 0xca, 0xfc, 0xb9, 0xcc, 0xcc, 0xc5,
  0x12, 0x1e, 0x13, 0x3e, 0x4b, 0x9e, 0xe6, 0xaa,
  0x80, 0x88, 0x95, 0x78, 0x7d, 0x15, 0x00, 0x00]

/-- The merkle root of the genesis block for the test network (version 3), as the
uncommented declaration writes it. -/
def testNet3GenesisMerkleRoot : chainhash.Hash := [
  0xab, 0x4c, 0x83, 0xb8, 0xe4, 0x5c, 0x5b, 0xdb,
  0x44, 0x23, 0x2f, 0x17, 0xea, 0x6a, 0xf5, 0xc0,
  0x2e, 0xe0, 0x40, 0x97, 0x14, 0xc1, 0xe0, 0x9b,
  0xd8, 0xed, 0x12, 0x09, 0xb7, 0x4c, 0x04, 0xb8]

/-- The genesis block of the test network (version 3). -/
def testNet3GenesisBlock : wire.MsgBlock :=
  { Header :=
      { Version := 1
        PrevBlock := chainhash.Hash.zero
        MerkleRoot := testNet3GenesisMerkleRoot
        Timestamp := time.Unix 1580661362 0
        Bits := 0x1f00ffff
        Nonce := 0x26331 }
    Transactions := [genesisCoinbaseTx] }

/-- The hash of the first block in the block chain for the simulation test network. -/
def simNetGenesisHash : chainhash.Hash := [
  0xf6, 0x7a, 0xd7, 0x69, 0x5d, 0x9b, 0x66, 0x2a,
  0x72, 0xff, 0x3d, 0x8e, 0xdb, 0xbb, 0x2d, 0xe0,
  0xbf, 0xa6, 0x7b, 0x13, 0x97, 0x4b, 0xb9, 0x91,
  0x0d, 0x11, 0x6d, 0x5c, 0xbd, 0x86, 0x3e, 0x68]

/-- The merkle root of the genesis block for the simulation test network. -/
def simNetGenesisMerkleRoot : chainhash.Hash := genesisMerkleRoot

/-- The genesis block of the simulation test network. -/
def simNetGenesisBlock : wire.MsgBlock :=
  { Header :=
      { Version := 1
        PrevBlock := chainhash.Hash.zero
        MerkleRoot := simNetGenesisMerkleRoot
        Timestamp := time.Unix 1401292357 0
        Bits := 0x207fffff
        Nonce := 2 }
    Transactions := [genesisCoinbaseTx] }

/-- The hash of the first block in the block chain for the signet test network. -/
def sigNetGenesisHash : chainhash.Hash := [
  0xf6, 0x1e, 0xee, 0x3b, 0x63, 0xa3, 0x80, 0xa4,
  0x77, 0xa0, 0x63, 0xaf, 0x32, 0xb2, 0xbb, 0xc9,
  0x7c, 0x9f, 0xf9, 0xf0, 0x1f, 0x2c, 0x42, 0x25,
  0xe9, 0x73, 0x98, 0x81, 0x08, 0x00, 0x00, 0x00]

/-- The merkle root of the genesis block for the signet test network. -/
def sigNetGenesisMerkleRoot : chainhash.Hash := genesisMerkleRoot

/-- The genesis block of the signet test network. -/
def sigNetGenesisBlock : wire.MsgBlock :=
  { Header :=
      { Version := 1
        PrevBlock := chainhash.Hash.zero
        MerkleRoot := sigNetGenesisMerkleRoot
        Timestamp := time.Unix 1598918400 0
        Bits := 0x1e0377ae
        Nonce := 52613770 }
    Transactions := [genesisCoinbaseTx] }

end chaincfg

/-! ## netsync/interface.go -/

namespace netsync

/-- Go types as the declarations of `interface.go` write them. -/
inductive GoType where
  | named (pkg : String) (name : String)
  | pointer (elem : GoType)
  | slice (elem : GoType)
  | int32
  | int
  | bool
  | emptyInterface
deriving DecidableEq, Repr

/-- One parameter of a method: its name and type. -/
structure Param where
  name : String
  typ : GoType
deriving DecidableEq, Repr

/-- One method of an interface type: name, parameters in order, result types in order. -/
structure Method where
  name : String
  params : List Param
  results : List GoType
deriving DecidableEq, Repr

/-- One field of a struct type: its name and type. -/
structure Field where
  name : String
  typ : GoType
deriving DecidableEq, Repr

/-- The method set of `type PeerNotifier interface`, in declaration order. -/
def PeerNotifier : List Method := [
  { name := "AnnounceNewTransactions"
    params := [⟨"newTxs", .slice (.pointer (.named "mempool" "TxDesc"))⟩]
    results := [] },
  { name := "UpdatePeerHeights"
    params := [⟨"latestBlkHash", .pointer (.named "chainhash" "Hash")⟩,
               ⟨"latestHeight", .int32⟩,
               ⟨"updateSource", .pointer (.named "peer" "Peer")⟩]
    results := [] },
  { name := "RelayInventory"
    params := [⟨"invVect", .pointer (.named "wire" "InvVect")⟩,
               ⟨"data", .emptyInterface⟩]
    results := [] },
  { name := "TransactionConfirmed"
    params := [⟨"tx", .pointer (.named "twhutil" "Tx")⟩]
    results := [] }]

/-- The fields of `type Config struct`, in declaration order. -/
def Config : List Field := [
  ⟨"PeerNotifier", .named "netsync" "PeerNotifier"⟩,
  ⟨"Chain", .pointer (.named "blockchain" "BlockChain")⟩,
  ⟨"TxMemPool", .pointer (.named "mempool" "TxPool")⟩,
  ⟨"ChainParams", .pointer (.named "chaincfg" "Params")⟩,
  ⟨"DisableCheckpoints", .bool⟩,
  ⟨"MaxPeers", .int⟩,
  ⟨"FeeEstimator", .pointer (.named "mempool" "FeeEstimator")⟩]

/-- The type of the field of that name, when the struct has one. -/
def fieldType (fields : List Field) (name : String) : Option GoType :=
  (fields.find? fun f => f.name == name).map Field.typ

/-- The parameter types of the method of that name, when the interface has one. -/
def paramTypes (methods : List Method) (name : String) : Option (List GoType) :=
  (methods.find? fun m => m.name == name).map fun m => m.params.map Param.typ

end netsync

/-! ## The sync manager's Global Request Index -/

namespace netsync

/-- The identity of a connected peer. -/
abbrev PeerID := Nat

/-- Modelled from the spec: the sync manager is not among the sources. The Global Request
Index is the mapping from a block or transaction hash to the peer currently responsible for
delivering it, held as its list of entries (hash, peer), the most recently recorded last. -/
abbrev RequestIndex := List (chainhash.Hash × PeerID)

/-- Modelled from the spec: the sync manager is not among the sources. Whether the index
holds an outstanding entry for the hash. -/
def RequestIndex.outstanding (idx : RequestIndex) (h : chainhash.Hash) : Bool :=
  idx.any fun e => e.1 == h

/-- Modelled from the spec: the sync manager is not among the sources. The entry of a hash
is removed (on delivery, validation failure or request timeout). -/
def RequestIndex.release (idx : RequestIndex) (h : chainhash.Hash) : RequestIndex :=
  idx.filter fun e => e.1 != h

/-- Modelled from the spec: the sync manager is not among the sources. The entries of a
stalled or disconnected peer are cleared, so that they can be requested again. -/
def RequestIndex.clearPeer (idx : RequestIndex) (p : PeerID) : RequestIndex :=
  idx.filter fun e => e.2 != p

/-- The hashes that have an entry in the index, in entry order. -/
def RequestIndex.hashes (idx : RequestIndex) : List chainhash.Hash := idx.map Prod.fst

/-- Modelled from the spec: the sync manager is not among the sources. The state the
event loop owns, as far as requests go: the Global Request Index and the hashes the local
chain state and mempool already know. -/
structure SyncState where
  requestIndex : RequestIndex
  known : List chainhash.Hash
deriving DecidableEq, Repr

/-- The verdict of the validation collaborator (chain or mempool) on a delivered item. -/
inductive Verdict where
  | accepted
  | rejected
deriving DecidableEq, Repr

/-- Modelled from the spec: the sync manager is not among the sources. The events the
single event loop consumes, one at a time, in whatever order the peers produced them. -/
inductive Event where
  /-- A peer announces a block or transaction hash. -/
  | inventory (peer : PeerID) (hash : chainhash.Hash)
  /-- The manager wants the body of an accepted header from a peer (windowed block sync). -/
  | wantBlock (peer : PeerID) (hash : chainhash.Hash)
  /-- A peer delivers the item of that hash; the collaborator returns the verdict. -/
  | delivered (peer : PeerID) (hash : chainhash.Hash) (verdict : Verdict)
  /-- The request of a hash times out. -/
  | requestTimeout (hash : chainhash.Hash)
  /-- A peer stalls or disconnects. -/
  | peerLost (peer : PeerID)
deriving DecidableEq, Repr

/-- An outbound action of the event loop: a fetch request for a hash sent to a peer. -/
inductive Action where
  | fetch (peer : PeerID) (hash : chainhash.Hash)
deriving DecidableEq, Repr

/-- Modelled from the spec: the sync manager is not among the sources. Recording a request
against a peer enforces the index invariant: a hash with an outstanding entry is not recorded
or requested again; otherwise the entry is added and one fetch goes to the peer. -/
def recordRequest (s : SyncState) (p : PeerID) (h : chainhash.Hash) : SyncState × List Action :=
  if s.requestIndex.outstanding h then (s, [])
  else ({ s with requestIndex := s.requestIndex ++ [(h, p)] }, [Action.fetch p h])

/-- Modelled from the spec: the sync manager is not among the sources. One step of the
event loop. An announcement of a hash not already known (checked against the index and the
local chain state) triggers a single fetch to the announcing peer, recorded in the index. A
delivery that matches the outstanding request of the delivering peer removes the entry, and
an accepted item becomes known; any other delivery is ignored. A timeout releases the
entry of the hash; a lost peer has its entries cleared. -/
def handleEvent (s : SyncState) : Event → SyncState × List Action
  | .inventory p h => if s.known.contains h then (s, []) else recordRequest s p h
  | .wantBlock p h => if s.known.contains h then (s, []) else recordRequest s p h
  | .delivered p h v =>
      if s.requestIndex.contains (h, p) then
        ({ requestIndex := s.requestIndex.release h
           known := match v with
             | .accepted => h :: s.known
             | .rejected => s.known }, [])
      else (s, [])
  | .requestTimeout h => ({ s with requestIndex := s.requestIndex.release h }, [])
  | .peerLost p => ({ s with requestIndex := s.requestIndex.clearPeer p }, [])

/-- The state at start-up: no outstanding request, the hashes of the local chain known. -/
def SyncState.init (known : List chainhash.Hash) : SyncState :=
  { requestIndex := [], known := known }

/-- The state after the event loop has processed the events in order. -/
def processEvents (s : SyncState) (events : List Event) : SyncState :=
  events.foldl (fun st e => (handleEvent st e).1) s

/-- The fetch requests the event loop sends while processing the events in order. -/
def emitted : SyncState → List Event → List Action
  | _, [] => []
  | s, e :: rest => (handleEvent s e).2 ++ emitted (handleEvent s e).1 rest

end netsync

/-! ## The Orphan Block Pool -/

namespace netsync

/-- Modelled from the spec: the orphan pool is not among the sources. An entry is keyed by
block hash and holds the block payload (with the previous-block hash it waits on), the peer
it arrived from and an expiration timestamp. -/
structure OrphanEntry where
  hash : chainhash.Hash
  prevHash : chainhash.Hash
  payload : List Nat
  source : PeerID
  expiration : Nat
deriving DecidableEq, Repr

/-- Modelled from the spec: the orphan pool is not among the sources. The pool: the
configured maximum entry count, the time to live, and the entries in arrival order. -/
structure OrphanPool where
  maxEntries : Nat
  ttl : Nat
  entries : List OrphanEntry
deriving DecidableEq, Repr

/-- Modelled from the spec: the orphan pool is not among the sources. The oldest entry is
the one whose expiration is earliest, the earlier arrival among equals. -/
def oldest : List OrphanEntry → Option OrphanEntry
  | [] => none
  | e :: rest =>
      match oldest rest with
      | none => some e
      | some o => if e.expiration ≤ o.expiration then some e else some o

/-- Modelled from the spec: the orphan pool is not among the sources. Eviction removes the
oldest entry, when there is one. -/
def evictOldest (entries : List OrphanEntry) : List OrphanEntry :=
  match oldest entries with
  | none => entries
  | some o => entries.erase o

namespace OrphanPool

/-- The empty pool of a configuration. -/
def empty (maxEntries ttl : Nat) : OrphanPool :=
  { maxEntries := maxEntries, ttl := ttl, entries := [] }

/-- Lookup by hash. -/
def lookup (pool : OrphanPool) (h : chainhash.Hash) : Option OrphanEntry :=
  pool.entries.find? fun e => e.hash == h

/-- Lookup of the orphans waiting on a parent hash (the reverse index). -/
def children (pool : OrphanPool) (parent : chainhash.Hash) : List chainhash.Hash :=
  (pool.entries.filter fun e => e.prevHash == parent).map OrphanEntry.hash

/-- Modelled from the spec: the orphan pool is not among the sources. Insertion of a hash
already present is a no-op that refreshes its expiration; insertion of a new hash evicts the
oldest entry if the pool is at capacity, then records the block with the caller-specified
peer and the expiration derived from the time to live. -/
def insert (pool : OrphanPool) (now : Nat) (hash prevHash : chainhash.Hash)
    (payload : List Nat) (source : PeerID) : OrphanPool :=
  if pool.entries.any (fun e => e.hash == hash) then
    { pool with entries := pool.entries.map fun e =>
        if e.hash == hash then { e with expiration := now + pool.ttl } else e }
  else
    let kept := if pool.maxEntries ≤ pool.entries.length then evictOldest pool.entries
                else pool.entries
    { pool with entries := kept ++
        [{ hash := hash, prevHash := prevHash, payload := payload, source := source,
           expiration := now + pool.ttl }] }

/-- Modelled from the spec: the orphan pool is not among the sources. Entries whose
expiration has passed are purged. -/
def purgeExpired (pool : OrphanPool) (now : Nat) : OrphanPool :=
  { pool with entries := pool.entries.filter fun e => now ≤ e.expiration }

/-- Modelled from the spec: the orphan pool is not among the sources. Removal by hash. -/
def remove (pool : OrphanPool) (h : chainhash.Hash) : OrphanPool :=
  { pool with entries := pool.entries.filter fun e => e.hash != h }

end OrphanPool

/-- The operations of the pool contract. -/
inductive PoolOp where
  | insert (now : Nat) (hash prevHash : chainhash.Hash) (payload : List Nat) (source : PeerID)
  | lookup (hash : chainhash.Hash)
  | children (parent : chainhash.Hash)
  | purgeExpired (now : Nat)
  | remove (hash : chainhash.Hash)
deriving DecidableEq, Repr

/-- The pool after one operation; the two lookups leave it as it is. -/
def OrphanPool.apply (pool : OrphanPool) : PoolOp → OrphanPool
  | .insert now h prev payload src => pool.insert now h prev payload src
  | .lookup _ => pool
  | .children _ => pool
  | .purgeExpired now => pool.purgeExpired now
  | .remove h => pool.remove h

/-- The pool after a sequence of operations. -/
def OrphanPool.run (pool : OrphanPool) (ops : List PoolOp) : OrphanPool :=
  ops.foldl OrphanPool.apply pool

end netsync

/-! ## Checks of the hash model against known digests -/

set_option maxRecDepth 100000

namespace sha256

/-- The digest of the three bytes "abc" is the one FIPS 180-4 gives for it. -/
theorem Sum256_abc : Sum256 [0x61, 0x62, 0x63] =
    [0xba, 0x78, 0x16, 0xbf, 0x8f, 0x01, 0xcf, 0xea, 0x41, 0x41, 0x40, 0xde, 0x5d, 0xae, 0x22, 0x23,
     0xb0, 0x03, 0x61, 0xa3, 0x96, 0x17, 0x7a, 0x9c, 0xb4, 0x10, 0xff, 0x61, 0xf2, 0x00, 0x15, 0xad] := by
  decide

/-- The digest of the empty message. -/
theorem Sum256_empty : Sum256 [] =
    [0xe3, 0xb0, 0xc4, 0x42, 0x98, 0xfc, 0x1c, 0x14, 0x9a, 0xfb, 0xf4, 0xc8, 0x99, 0x6f, 0xb9, 0x24,
     0x27, 0xae, 0x41, 0xe4, 0x64, 0x9b, 0x93, 0x4c, 0xa4, 0x95, 0x99, 0x1b, 0x78, 0x52, 0xb8, 0x55] := by
  decide

end sha256

namespace chaincfg

/-- The header serialization is 80 bytes long for the main-network genesis header. -/
theorem genesisBlock_header_serialize_length :
    genesisBlock.Header.serialize.length = 80 := by
  decide

/-- The block-hash model reproduces a hash of this file: the simulation-network header
with the merkle root bytes that `regTestGenesisMerkleRoot` holds hashes to
`simNetGenesisHash`. -/
theorem simNet_header_with_regTest_root_hashes_to_simNetGenesisHash :
    wire.BlockHeader.BlockHash
      { simNetGenesisBlock.Header with MerkleRoot := regTestGenesisMerkleRoot }
      = simNetGenesisHash := by
  decide

/-! ## The genesis constants -/

/-- C1, evaluated on the constants: the double SHA-256 of the 80-byte serialization of
`genesisBlock.Header` is `0844cded…41a5`, and it is not the 32 bytes of `genesisHash`,
neither in the order written nor reversed. -/
theorem genesisHash_is_not_the_header_hash :
    wire.BlockHeader.BlockHash genesisBlock.Header =
      [0x08, 0x44, 0xcd, 0xed, 0x8e, 0x65, 0x49, 0xdc, 0xa8, 0xc9, 0x58, 0xbf, 0x38, 0x88, 0x90, 0xd4,
       0x69, 0xba, 0x3a, 0x5c, 0xe5, 0xf6, 0x88, 0x62, 0x7f, 0xd0, 0xe3, 0xcc, 0xf6, 0xb1, 0x41, 0xa5]
    ∧ wire.BlockHeader.BlockHash genesisBlock.Header ≠ genesisHash
    ∧ (wire.BlockHeader.BlockHash genesisBlock.Header).reverse ≠ genesisHash := by
  decide

/-- C2: each of `genesisBlock`, `regTestGenesisBlock` and `testNet3GenesisBlock` has a
`Transactions` list of exactly one element, and that element is `genesisCoinbaseTx`. -/
theorem genesis_blocks_hold_genesisCoinbaseTx :
    (genesisBlock.Transactions.length = 1 ∧
      genesisBlock.Transactions = [genesisCoinbaseTx]) ∧
    (regTestGenesisBlock.Transactions.length = 1 ∧
      regTestGenesisBlock.Transactions = [genesisCoinbaseTx]) ∧
    (testNet3GenesisBlock.Transactions.length = 1 ∧
      testNet3GenesisBlock.Transactions = [genesisCoinbaseTx]) :=
  ⟨⟨rfl, rfl⟩, ⟨rfl, rfl⟩, ⟨rfl, rfl⟩⟩

/-- C3, evaluated on the constants: `regTestGenesisMerkleRoot` and `genesisMerkleRoot` are
both 32 bytes long and differ, at every one of the 32 positions (0x3b against 0xab at the
first). -/
theorem regTestGenesisMerkleRoot_differs_from_genesisMerkleRoot :
    regTestGenesisMerkleRoot.length = 32 ∧ genesisMerkleRoot.length = 32 ∧
    regTestGenesisMerkleRoot ≠ genesisMerkleRoot ∧
    (∀ i : Fin 32, regTestGenesisMerkleRoot.getD i 0 ≠ genesisMerkleRoot.getD i 0) ∧
    regTestGenesisMerkleRoot.getD 0 0 = 0x3b ∧ genesisMerkleRoot.getD 0 0 = 0xab := by
  decide

/-- C4: `testNet3GenesisMerkleRoot`, `simNetGenesisMerkleRoot` and
`sigNetGenesisMerkleRoot` each equal `genesisMerkleRoot`, 32 bytes, byte for byte. -/
theorem other_genesis_merkle_roots_equal_genesisMerkleRoot :
    genesisMerkleRoot.length = 32 ∧
    testNet3GenesisMerkleRoot = genesisMerkleRoot ∧
    simNetGenesisMerkleRoot = genesisMerkleRoot ∧
    sigNetGenesisMerkleRoot = genesisMerkleRoot := by
  decide

end chaincfg

namespace netsync

/-! ## The interface and the configuration struct -/

/-- C5: `PeerNotifier` has exactly four operations, AnnounceNewTransactions (a slice of
transaction descriptors), UpdatePeerHeights (a block hash, an int32 height, a source peer),
RelayInventory (an inventory vector, a value of the empty interface) and
TransactionConfirmed (a transaction), and every one of them has no result. -/
theorem PeerNotifier_four_operations_without_results :
    PeerNotifier.length = 4 ∧
    PeerNotifier.map Method.name =
      ["AnnounceNewTransactions", "UpdatePeerHeights", "RelayInventory",
       "TransactionConfirmed"] ∧
    paramTypes PeerNotifier "AnnounceNewTransactions" =
      some [.slice (.pointer (.named "mempool" "TxDesc"))] ∧
    paramTypes PeerNotifier "UpdatePeerHeights" =
      some [.pointer (.named "chainhash" "Hash"), .int32, .pointer (.named "peer" "Peer")] ∧
    paramTypes PeerNotifier "RelayInventory" =
      some [.pointer (.named "wire" "InvVect"), .emptyInterface] ∧
    paramTypes PeerNotifier "TransactionConfirmed" =
      some [.pointer (.named "twhutil" "Tx")] ∧
    (∀ m ∈ PeerNotifier, m.results = []) := by
  decide

/-- C6: `Config` has exactly seven fields and no others: PeerNotifier (the notification
target), Chain, TxMemPool, ChainParams and FeeEstimator (handles, as pointers), the boolean
DisableCheckpoints and the integer MaxPeers. -/
theorem Config_has_exactly_seven_options :
    Config.length = 7 ∧
    Config.map Field.name =
      ["PeerNotifier", "Chain", "TxMemPool", "ChainParams", "DisableCheckpoints", "MaxPeers",
       "FeeEstimator"] ∧
    fieldType Config "PeerNotifier" = some (.named "netsync" "PeerNotifier") ∧
    fieldType Config "Chain" = some (.pointer (.named "blockchain" "BlockChain")) ∧
    fieldType Config "TxMemPool" = some (.pointer (.named "mempool" "TxPool")) ∧
    fieldType Config "ChainParams" = some (.pointer (.named "chaincfg" "Params")) ∧
    fieldType Config "DisableCheckpoints" = some .bool ∧
    fieldType Config "MaxPeers" = some .int ∧
    fieldType Config "FeeEstimator" = some (.pointer (.named "mempool" "FeeEstimator")) := by
  decide

end netsync

namespace netsync

/-! ## The Global Request Index holds one entry per hash -/

theorem outstanding_iff_mem (idx : RequestIndex) (h : chainhash.Hash) :
    idx.outstanding h = true ↔ h ∈ idx.hashes := by
  simp [RequestIndex.outstanding, RequestIndex.hashes]

theorem hashes_release_sublist (idx : RequestIndex) (h : chainhash.Hash) :
    (idx.release h).hashes.Sublist idx.hashes :=
  List.Sublist.map _ (List.filter_sublist _)

theorem hashes_clearPeer_sublist (idx : RequestIndex) (p : PeerID) :
    (idx.clearPeer p).hashes.Sublist idx.hashes :=
  List.Sublist.map _ (List.filter_sublist _)

theorem recordRequest_nodup (s : SyncState) (p : PeerID) (h : chainhash.Hash)
    (hs : s.requestIndex.hashes.Nodup) : (recordRequest s p h).1.requestIndex.hashes.Nodup := by
  unfold recordRequest
  by_cases ho : s.requestIndex.outstanding h = true
  · simpa [ho] using hs
  · have hnot : h ∉ s.requestIndex.hashes := fun hm => ho ((outstanding_iff_mem _ _).2 hm)
    simp only [ho, Bool.false_eq_true, if_false]
    show (List.map Prod.fst (s.requestIndex ++ [(h, p)])).Nodup
    rw [List.map_append, List.nodup_append]
    refine ⟨hs, by simp, ?_⟩
    intro a ha hb
    simp at hb
    subst hb
    exact hnot ha

theorem handleEvent_nodup (s : SyncState) (e : Event)
    (hs : s.requestIndex.hashes.Nodup) : (handleEvent s e).1.requestIndex.hashes.Nodup := by
  cases e with
  | inventory p h =>
      simp only [handleEvent]
      split
      · exact hs
      · exact recordRequest_nodup s p h hs
  | wantBlock p h =>
      simp only [handleEvent]
      split
      · exact hs
      · exact recordRequest_nodup s p h hs
  | delivered p h v =>
      simp only [handleEvent]
      split
      · exact hs.sublist (hashes_release_sublist _ _)
      · exact hs
  | requestTimeout h => exact hs.sublist (hashes_release_sublist _ _)
  | peerLost p => exact hs.sublist (hashes_clearPeer_sublist _ _)

theorem processEvents_nodup (events : List Event) (s : SyncState)
    (hs : s.requestIndex.hashes.Nodup) :
    (processEvents s events).requestIndex.hashes.Nodup := by
  induction events generalizing s with
  | nil => exact hs
  | cons e rest ih => exact ih _ (handleEvent_nodup s e hs)

theorem entries_of_hash_le_one (idx : RequestIndex) (h : chainhash.Hash)
    (hn : idx.hashes.Nodup) : (idx.filter fun e => e.1 == h).length ≤ 1 := by
  induction idx with
  | nil => simp
  | cons a rest ih =>
      have hn2 : a.1 ∉ RequestIndex.hashes rest ∧ (RequestIndex.hashes rest).Nodup := by
        simpa [RequestIndex.hashes] using hn
      by_cases ha : a.1 = h
      · have hempty : (List.filter (fun e => e.1 == h) rest) = [] := by
          rw [List.filter_eq_nil_iff]
          intro e he hc
          have : e.1 = h := by simpa using hc
          exact hn2.1 (by
            rw [ha, ← this]
            exact List.mem_map_of_mem Prod.fst he)
        have hb : (a.1 == h) = true := by simpa using ha
        rw [List.filter_cons_of_pos (by simp [hb]), hempty]
        simp
      · have hb : (a.1 == h) = false := by simpa using ha
        rw [List.filter_cons_of_neg (by simp [hb])]
        exact ih hn2.2

theorem responsible_peer_unique (idx : RequestIndex) (h : chainhash.Hash) (p q : PeerID)
    (hn : idx.hashes.Nodup) (hp : (h, p) ∈ idx) (hq : (h, q) ∈ idx) : p = q := by
  induction idx with
  | nil => simp at hp
  | cons a rest ih =>
      have hn2 : a.1 ∉ RequestIndex.hashes rest ∧ (RequestIndex.hashes rest).Nodup := by
        simpa [RequestIndex.hashes] using hn
      have key : ∀ r : PeerID, (h, r) ∈ rest → h ∈ RequestIndex.hashes rest := fun r hr =>
        List.mem_map_of_mem Prod.fst hr
      rcases List.mem_cons.1 hp with hp1 | hp1 <;> rcases List.mem_cons.1 hq with hq1 | hq1
      · exact (Prod.mk.inj (hp1.trans hq1.symm)).2
      · exact absurd (key q hq1) (by rw [← hp1] at hn2; exact hn2.1)
      · exact absurd (key p hp1) (by rw [← hq1] at hn2; exact hn2.1)
      · exact ih hn2.2 hp1 hq1

theorem inventory_while_outstanding (s : SyncState) (p : PeerID) (h : chainhash.Hash)
    (ho : s.requestIndex.outstanding h = true) :
    handleEvent s (.inventory p h) = (s, []) := by
  simp only [handleEvent]
  split
  · rfl
  · simp [recordRequest, ho]

theorem second_announcement_sends_nothing (known : List chainhash.Hash) (h : chainhash.Hash)
    (p q : PeerID) (hk : h ∉ known) :
    emitted (SyncState.init known) [.inventory p h, .inventory q h] = [Action.fetch p h] := by
  have hc : known.contains h = false := by simpa using hk
  simp [emitted, handleEvent, recordRequest, SyncState.init, RequestIndex.outstanding, hc, hk]

/-- C7: in every state the event loop reaches from start-up, whatever the events and their
order, every hash has at most one entry in the Global Request Index and at most one peer
responsible for it; an announcement of a hash by another peer while its fetch is
outstanding changes nothing and sends no request, so that two announcements of an unknown
hash in a row send exactly one fetch, to the first announcer. -/
theorem requestIndex_at_most_one_entry_per_hash :
    (∀ (known : List chainhash.Hash) (events : List Event) (h : chainhash.Hash),
      ((processEvents (SyncState.init known) events).requestIndex.filter
        fun e => e.1 == h).length ≤ 1) ∧
    (∀ (known : List chainhash.Hash) (events : List Event) (h : chainhash.Hash) (p q : PeerID),
      (h, p) ∈ (processEvents (SyncState.init known) events).requestIndex →
      (h, q) ∈ (processEvents (SyncState.init known) events).requestIndex → p = q) ∧
    (∀ (known : List chainhash.Hash) (events : List Event) (h : chainhash.Hash) (p q : PeerID),
      (h, p) ∈ (processEvents (SyncState.init known) events).requestIndex →
      handleEvent (processEvents (SyncState.init known) events) (.inventory q h)
        = (processEvents (SyncState.init known) events, [])) ∧
    (∀ (known : List chainhash.Hash) (h : chainhash.Hash) (p q : PeerID), h ∉ known →
      emitted (SyncState.init known) [.inventory p h, .inventory q h] = [Action.fetch p h]) := by
  have hinit : ∀ known : List chainhash.Hash,
      (SyncState.init known).requestIndex.hashes.Nodup := fun _ => List.nodup_nil
  refine ⟨?_, ?_, ?_, second_announcement_sends_nothing⟩
  · intro known events h
    exact entries_of_hash_le_one _ h (processEvents_nodup events _ (hinit known))
  · intro known events h p q hp hq
    exact responsible_peer_unique _ h p q (processEvents_nodup events _ (hinit known)) hp hq
  · intro known events h p q hp
    apply inventory_while_outstanding
    rw [outstanding_iff_mem]
    exact List.mem_map_of_mem Prod.fst hp

/-- The scenario of two peers announcing one unknown hash, from the theorem on the
request index: peers 1 and 2 announce the hash [1] at start-up with nothing known, and the
only request sent is the fetch to peer 1. -/
theorem requestIndex_at_most_one_entry_per_hash_witness :
    ([1] : chainhash.Hash) ∉ ([] : List chainhash.Hash) ∧
    emitted (SyncState.init []) [.inventory 1 [1], .inventory 2 [1]] = [Action.fetch 1 [1]] :=
  ⟨by decide, requestIndex_at_most_one_entry_per_hash.2.2.2 [] [1] 1 2 (by decide)⟩

end netsync

namespace netsync

/-! ## The Orphan Block Pool stays within its maximum -/

theorem oldest_isSome (l : List OrphanEntry) (hl : l ≠ []) : ∃ o, oldest l = some o := by
  cases l with
  | nil => exact absurd rfl hl
  | cons a rest =>
      simp only [oldest]
      cases oldest rest with
      | none => exact ⟨a, rfl⟩
      | some x =>
          by_cases hle : a.expiration ≤ x.expiration
          · exact ⟨a, by simp [hle]⟩
          · exact ⟨x, by simp [hle]⟩

theorem oldest_spec (l : List OrphanEntry) (o : OrphanEntry) (h : oldest l = some o) :
    o ∈ l ∧ ∀ e ∈ l, o.expiration ≤ e.expiration := by
  induction l generalizing o with
  | nil => simp [oldest] at h
  | cons a rest ih =>
      simp only [oldest] at h
      cases hr : oldest rest with
      | none =>
          rw [hr] at h
          have hrest : rest = [] := by
            by_contra hne
            obtain ⟨x, hx⟩ := oldest_isSome rest hne
            rw [hx] at hr
            exact Option.noConfusion hr
          have hao : a = o := by simpa using h
          subst hao
          subst hrest
          simp
      | some x =>
          rw [hr] at h
          have hx := ih x hr
          by_cases hle : a.expiration ≤ x.expiration
          · have hao : a = o := by simpa [hle] using h
            subst hao
            refine ⟨List.mem_cons_self _ _, ?_⟩
            intro e he
            rcases List.mem_cons.1 he with rfl | he
            · exact le_rfl
            · exact le_trans hle (hx.2 e he)
          · have hxo : x = o := by simpa [hle] using h
            subst hxo
            refine ⟨List.mem_cons_of_mem _ hx.1, ?_⟩
            intro e he
            rcases List.mem_cons.1 he with rfl | he
            · exact le_of_lt (not_le.1 hle)
            · exact hx.2 e he

theorem insert_maxEntries (pool : OrphanPool) (now : Nat) (h prev : chainhash.Hash)
    (payload : List Nat) (src : PeerID) :
    (pool.insert now h prev payload src).maxEntries = pool.maxEntries := by
  unfold OrphanPool.insert
  split <;> rfl

theorem apply_maxEntries (pool : OrphanPool) (op : PoolOp) :
    (pool.apply op).maxEntries = pool.maxEntries := by
  cases op with
  | insert now h prev payload src => exact insert_maxEntries pool now h prev payload src
  | lookup h => rfl
  | children h => rfl
  | purgeExpired now => rfl
  | remove h => rfl

theorem insert_new_at_capacity (pool : OrphanPool) (now : Nat) (h prev : chainhash.Hash)
    (payload : List Nat) (src : PeerID) (hmax : 0 < pool.maxEntries)
    (hfull : pool.entries.length = pool.maxEntries)
    (hnew : ∀ e ∈ pool.entries, e.hash ≠ h) :
    ∃ o ∈ pool.entries, (∀ e ∈ pool.entries, o.expiration ≤ e.expiration) ∧
      (pool.insert now h prev payload src).entries =
        pool.entries.erase o ++
          [{ hash := h, prevHash := prev, payload := payload, source := src,
             expiration := now + pool.ttl }] ∧
      (pool.insert now h prev payload src).entries.length = pool.entries.length := by
  have hne : pool.entries ≠ [] := by
    intro hnil
    rw [hnil] at hfull
    simp at hfull
    omega
  obtain ⟨o, ho⟩ := oldest_isSome _ hne
  have hspec := oldest_spec _ o ho
  have hany : pool.entries.any (fun e => e.hash == h) = false := by
    rw [List.any_eq_false]
    intro e he
    simpa using hnew e he
  have hins : (pool.insert now h prev payload src).entries =
      pool.entries.erase o ++
        [{ hash := h, prevHash := prev, payload := payload, source := src,
           expiration := now + pool.ttl }] := by
    simp [OrphanPool.insert, hany, hfull, evictOldest, ho]
  refine ⟨o, hspec.1, hspec.2, hins, ?_⟩
  rw [hins, List.length_append, List.length_erase_of_mem hspec.1]
  have : 0 < pool.entries.length := List.length_pos.2 hne
  simp
  omega

theorem insert_length_le (pool : OrphanPool) (now : Nat) (h prev : chainhash.Hash)
    (payload : List Nat) (src : PeerID) (hmax : 0 < pool.maxEntries)
    (hinv : pool.entries.length ≤ pool.maxEntries) :
    (pool.insert now h prev payload src).entries.length ≤ pool.maxEntries := by
  by_cases hany : pool.entries.any (fun e => e.hash == h) = true
  · simp only [OrphanPool.insert, hany, if_true, List.length_map]
    exact hinv
  · have hnew : ∀ e ∈ pool.entries, e.hash ≠ h := by
      intro e he heq
      apply hany
      rw [List.any_eq_true]
      exact ⟨e, he, by simpa using heq⟩
    by_cases hfull : pool.entries.length = pool.maxEntries
    · obtain ⟨o, _, _, _, hlen⟩ :=
        insert_new_at_capacity pool now h prev payload src hmax hfull hnew
      rw [hlen]
      exact hinv
    · have hlt : ¬ pool.maxEntries ≤ pool.entries.length := by omega
      simp only [OrphanPool.insert, hany, Bool.false_eq_true, if_false, hlt,
        List.length_append, List.length_singleton]
      omega

theorem apply_length_le (pool : OrphanPool) (op : PoolOp) (hmax : 0 < pool.maxEntries)
    (hinv : pool.entries.length ≤ pool.maxEntries) :
    (pool.apply op).entries.length ≤ pool.maxEntries := by
  cases op with
  | insert now h prev payload src => exact insert_length_le pool now h prev payload src hmax hinv
  | lookup h => exact hinv
  | children h => exact hinv
  | purgeExpired now => exact le_trans (List.length_filter_le _ _) hinv
  | remove h => exact le_trans (List.length_filter_le _ _) hinv

theorem run_length_le (ops : List PoolOp) (pool : OrphanPool) (hmax : 0 < pool.maxEntries)
    (hinv : pool.entries.length ≤ pool.maxEntries) :
    (pool.run ops).maxEntries = pool.maxEntries ∧
      (pool.run ops).entries.length ≤ pool.maxEntries := by
  induction ops generalizing pool with
  | nil => exact ⟨rfl, hinv⟩
  | cons op rest ih =>
      have hm := apply_maxEntries pool op
      have hl := apply_length_le pool op hmax hinv
      have := ih (pool.apply op) (by rw [hm]; exact hmax) (by rw [hm]; exact hl)
      rw [hm] at this
      exact this

/-- C8, as amended: for a pool with a positive configured maximum that holds at most that
many entries (the empty pool among them), the number of entries is at most the maximum after
every operation and after every sequence of operations; and inserting a new hash into a pool
that is at capacity evicts exactly one entry, an oldest one (none expires earlier), the rest
staying as they were with the new entry added, so that the pool is again at capacity. -/
theorem orphanPool_bounded_and_evicts_oldest (maxEntries ttl : Nat) (hmax : 0 < maxEntries) :
    (∀ (entries : List OrphanEntry) (op : PoolOp), entries.length ≤ maxEntries →
      ((OrphanPool.mk maxEntries ttl entries).apply op).entries.length ≤ maxEntries) ∧
    (∀ (entries : List OrphanEntry) (ops : List PoolOp), entries.length ≤ maxEntries →
      ((OrphanPool.mk maxEntries ttl entries).run ops).entries.length ≤ maxEntries) ∧
    (∀ ops : List PoolOp,
      ((OrphanPool.empty maxEntries ttl).run ops).entries.length ≤ maxEntries) ∧
    (∀ (entries : List OrphanEntry) (now : Nat) (h prev : chainhash.Hash) (payload : List Nat)
        (src : PeerID),
      entries.length = maxEntries → (∀ e ∈ entries, e.hash ≠ h) →
      ∃ o ∈ entries, (∀ e ∈ entries, o.expiration ≤ e.expiration) ∧
        ((OrphanPool.mk maxEntries ttl entries).insert now h prev payload src).entries =
          entries.erase o ++
            [{ hash := h, prevHash := prev, payload := payload, source := src,
               expiration := now + ttl }] ∧
        ((OrphanPool.mk maxEntries ttl entries).insert now h prev payload src).entries.length
          = maxEntries) := by
  refine ⟨?_, ?_, ?_, ?_⟩
  · intro entries op hinv
    exact apply_length_le (OrphanPool.mk maxEntries ttl entries) op hmax hinv
  · intro entries ops hinv
    exact (run_length_le ops (OrphanPool.mk maxEntries ttl entries) hmax hinv).2
  · intro ops
    exact (run_length_le ops (OrphanPool.empty maxEntries ttl) hmax (Nat.zero_le _)).2
  · intro entries now h prev payload src hfull hnew
    obtain ⟨o, hmem, hold, hins, hlen⟩ :=
      insert_new_at_capacity (OrphanPool.mk maxEntries ttl entries) now h prev payload src
        hmax hfull hnew
    exact ⟨o, hmem, hold, hins, by rw [hlen]; exact hfull⟩

/-- A pool of maximum 2 and time to live 10, from the theorem on the orphan pool: after
three insertions of new hashes into the empty pool it holds at most 2 entries; and a fourth
hash inserted into the pool of the entries [2] and [3], which is at capacity, evicts one of the
two, none of them expiring earlier, and leaves 2 entries. -/
theorem orphanPool_bounded_and_evicts_oldest_witness :
    0 < 2 ∧
    ((OrphanPool.empty 2 10).run
      [.insert 0 [1] [0] [] 7, .insert 1 [2] [1] [] 7, .insert 2 [3] [2] [] 8]).entries.length
        ≤ 2 ∧
    (∃ o ∈ [OrphanEntry.mk [2] [1] [] 7 11, OrphanEntry.mk [3] [2] [] 8 12],
      (∀ e ∈ [OrphanEntry.mk [2] [1] [] 7 11, OrphanEntry.mk [3] [2] [] 8 12],
        o.expiration ≤ e.expiration) ∧
      ((OrphanPool.mk 2 10 [OrphanEntry.mk [2] [1] [] 7 11, OrphanEntry.mk [3] [2] [] 8 12]).insert
          5 [4] [3] [] 9).entries =
        [OrphanEntry.mk [2] [1] [] 7 11, OrphanEntry.mk [3] [2] [] 8 12].erase o ++
          [{ hash := [4], prevHash := [3], payload := [], source := 9, expiration := 5 + 10 }] ∧
      ((OrphanPool.mk 2 10 [OrphanEntry.mk [2] [1] [] 7 11, OrphanEntry.mk [3] [2] [] 8 12]).insert
          5 [4] [3] [] 9).entries.length = 2) :=
  ⟨by decide, (orphanPool_bounded_and_evicts_oldest 2 10 (by decide)).2.2.1 _,
    (orphanPool_bounded_and_evicts_oldest 2 10 (by decide)).2.2.2
      [OrphanEntry.mk [2] [1] [] 7 11, OrphanEntry.mk [3] [2] [] 8 12] 5 [4] [3] [] 9
      (by decide) (by decide)⟩

/-- C8 as stated fails for a configured maximum of 0: the empty pool of maximum 0 is at
capacity, one insertion of a new hash finds no entry to evict and stores the block, and the
pool then holds 1 entry, more than its maximum. -/
theorem orphanPool_maximum_zero_exceeded :
    ((OrphanPool.empty 0 10).run [.insert 0 [1] [0] [] 7]).maxEntries = 0 ∧
    ((OrphanPool.empty 0 10).run [.insert 0 [1] [0] [] 7]).entries.length = 1 ∧
    ¬ ((OrphanPool.empty 0 10).run [.insert 0 [1] [0] [] 7]).entries.length ≤
        ((OrphanPool.empty 0 10).run [.insert 0 [1] [0] [] 7]).maxEntries ∧
    ¬ (∀ (maxEntries ttl : Nat) (ops : List PoolOp),
        ((OrphanPool.empty maxEntries ttl).run ops).entries.length ≤ maxEntries) := by
  refine ⟨by decide, by decide, by decide, ?_⟩
  intro hall
  exact absurd (hall 0 10 [.insert 0 [1] [0] [] 7]) (by decide)

/-- The same three insertions evaluated: the entry of hash [1], the oldest, is the one
evicted. -/
theorem orphanPool_three_insertions :
    (((OrphanPool.empty 2 10).run
      [.insert 0 [1] [0] [] 7, .insert 1 [2] [1] [] 7, .insert 2 [3] [2] [] 8]).entries.map
        OrphanEntry.hash) = [[2], [3]] := by
  decide

end netsync
